import Mathlib

/-!
Shallow embedding of `src/inventory_manager.py` (an inventory-tracking
application).  Python strings are modelled as lists of character code
points (`List Nat`); the case-conversion and whitespace functions model
Python's `str.upper`, `str.lower` and `str.strip` on the ASCII range,
which is the alphabet of item codes and queries in this program.
Python `float` prices are modelled as rationals, `int` stock as `Int`,
and a call that can raise (`int()` on a malformed code suffix) returns
`Option`, with `none` standing for the raised exception.
-/

namespace Inventory

/-- A Python string, as its list of character code points. -/
abbrev Str := List Nat

/-- Code points of a Lean string literal, for writing concrete examples. -/
def cs (s : String) : Str := s.toList.map Char.toNat

/-- `class Product` of `inventory_manager.py`: one inventory line item. -/
structure Product where
  name : Str
  price : Rat
  stock : Int
  item_code : Str
deriving DecidableEq

/-- The characters removed by Python's `str.strip()` (ASCII whitespace:
space, tab, newline, carriage return, vertical tab, form feed). -/
def isPySpace (c : Nat) : Bool :=
  c = 32 || c = 9 || c = 10 || c = 13 || c = 11 || c = 12

/-- Python `s.strip()`: remove leading and trailing whitespace. -/
def pyStrip (s : Str) : Str :=
  ((s.dropWhile isPySpace).reverse.dropWhile isPySpace).reverse

/-- Python `str.upper` on one character (ASCII range). -/
def upChar (c : Nat) : Nat := if 97 ≤ c ∧ c ≤ 122 then c - 32 else c

/-- Python `str.lower` on one character (ASCII range). -/
def lowChar (c : Nat) : Nat := if 65 ≤ c ∧ c ≤ 90 then c + 32 else c

/-- Python `s.upper()`. -/
def pyUpper (s : Str) : Str := s.map upChar

/-- Python `s.lower()`. -/
def pyLower (s : Str) : Str := s.map lowChar

/-- The normalisation `item_code.upper().strip()` that `find_product`
applies to its query argument. -/
def normCode (code : Str) : Str := pyStrip (pyUpper code)

/-- ASCII decimal digit. -/
def isDigitC (c : Nat) : Bool := 48 ≤ c && c ≤ 57

/-- Numeric value of a list of digit code points (most significant first). -/
def digitsVal (l : Str) : Nat := l.foldl (fun a c => 10 * a + (c - 48)) 0

/-- Helper for `validUD`: digits possibly separated by single
underscores, continuing after an initial digit has been seen. -/
def udAux : Str → Bool
  | [] => true
  | c :: rest =>
    if c = 95 then
      match rest with
      | [] => false
      | d :: rest2 => isDigitC d && udAux rest2
    else isDigitC c && udAux rest

/-- Whether a list of code points is a valid Python integer numeral body:
non-empty digits, with single underscores allowed between digits. -/
def validUD : Str → Bool
  | [] => false
  | c :: rest => isDigitC c && udAux rest

/-- Parse an unsigned Python integer numeral body. -/
def parseUD (l : Str) : Option Nat :=
  if validUD l then some (digitsVal (l.filter (fun c => c != 95))) else none

/-- Sign handling of Python `int(s)`, applied after stripping. -/
def pyIntAux : Str → Option Int
  | [] => none
  | c :: rest =>
    if c = 43 then (parseUD rest).map Int.ofNat
    else if c = 45 then (parseUD rest).map (fun n => -(Int.ofNat n))
    else (parseUD (c :: rest)).map Int.ofNat

/-- Python `int(s)` on a string: strip whitespace, optional sign, digit
body.  `none` models the `ValueError` raised on malformed input. -/
def pyInt (s : Str) : Option Int := pyIntAux (pyStrip s)

/-- Decimal digit code points of a natural number, structurally
recursive on a fuel argument so that the kernel can evaluate it (the
fuel `n + 1` in `natDigits` always suffices). -/
def natDigitsAux : Nat → Nat → Str
  | 0, _ => []
  | fuel + 1, n =>
    if n < 10 then [48 + n]
    else natDigitsAux fuel (n / 10) ++ [48 + n % 10]

/-- Decimal digit code points of a natural number, as Python's `str`. -/
def natDigits (n : Nat) : Str := natDigitsAux (n + 1) n

/-- Python `f"{n:03d}"`: decimal representation zero-padded to width 3,
the sign counting towards the width. -/
def pad3 (n : Int) : Str :=
  if n < 0 then
    let ds := natDigits n.natAbs
    45 :: (List.replicate (2 - ds.length) 48 ++ ds)
  else
    let ds := natDigits n.toNat
    List.replicate (3 - ds.length) 48 ++ ds

/-- Python `max` on a non-empty list of ints (0 on `[]`, unused there). -/
def maxInt : List Int → Int
  | [] => 0
  | [v] => v
  | v :: rest => max v (maxInt rest)

/-- The code points of `"ITM"`. -/
def itmPre : Str := [73, 84, 77]

/-- The products whose `item_code` starts with `"ITM"` (the filter of the
list comprehension in `generate_item_code`). -/
def itmCodes (inventory : List Product) : List Product :=
  inventory.filter (fun p => itmPre.isPrefixOf p.item_code)

/-- The parsed numeric suffixes `int(p.item_code[3:])` of the
`"ITM"`-prefixed products, keeping those that parse. -/
def suffixVals (inventory : List Product) : List Int :=
  (itmCodes inventory).filterMap (fun p => pyInt (p.item_code.drop 3))

/-- `generate_item_code(inventory)`: `"ITM001"` on an empty inventory;
otherwise `int(p.item_code[3:])` for every `"ITM"`-prefixed product
(`none` models the `ValueError` raised when one fails to parse), then
`"ITM"` + (max + 1 if any, else 1) formatted with `%03d`. -/
def generate_item_code (inventory : List Product) : Option Str :=
  if inventory.isEmpty then some (cs "ITM001")
  else
    if (itmCodes inventory).any (fun p => (pyInt (p.item_code.drop 3)).isNone) then none
    else
      let codes := suffixVals inventory
      let newNum : Int := if codes.isEmpty then 1 else maxInt codes + 1
      some (itmPre ++ pad3 newNum)

/-- `find_product(inventory, item_code)`: first product whose stored
`item_code` equals the uppercased, stripped query. -/
def find_product : List Product → Str → Option Product
  | [], _ => none
  | p :: rest, code =>
    if p.item_code = normCode code then some p else find_product rest code

/-- `get_product_by_name(inventory, name)`: first product whose lowered
name equals the lowered query. -/
def get_product_by_name : List Product → Str → Option Product
  | [], _ => none
  | p :: rest, name =>
    if pyLower p.name = pyLower name then some p else get_product_by_name rest name

/-- `add_product(inventory, name, price, stock)`.  The outer `Option` is
exception behaviour (`none` when `generate_item_code` raises); the inner
pair is the Python return value together with the inventory after the
call (the Python function mutates the list in place). -/
def add_product (inventory : List Product) (name : Str) (price : Rat) (stock : Int) :
    Option (Option Product × List Product) :=
  if price ≤ 0 ∨ stock < 0 then some (none, inventory)
  else if (get_product_by_name inventory name).isSome then some (none, inventory)
  else
    match generate_item_code inventory with
    | none => none
    | some code =>
      some (some ⟨name, price, stock, code⟩, inventory ++ [⟨name, price, stock, code⟩])

/-- The body of `update_product_details` once the product is found:
Python assigns `product.stock` before validating `new_price`, so a
rejected price leaves an already-applied stock mutation in place. -/
def applyUpd (p : Product) (new_stock : Option Int) (new_price : Option Rat) :
    Bool × Product :=
  match new_stock with
  | some s =>
    if s < 0 then (false, p)
    else
      let p1 : Product := ⟨p.name, p.price, s, p.item_code⟩
      match new_price with
      | some pr =>
        if pr ≤ 0 then (false, p1)
        else (true, ⟨p1.name, pr, p1.stock, p1.item_code⟩)
      | none => (true, p1)
  | none =>
    match new_price with
    | some pr =>
      if pr ≤ 0 then (false, p)
      else (true, ⟨p.name, pr, p.stock, p.item_code⟩)
    | none => (true, p)

/-- `update_product_details(inventory, item_code, new_stock, new_price)`:
find the first product matching the normalised code and mutate it via
`applyUpd`; `False` with the list unchanged when no product matches. -/
def update_product_details (inventory : List Product) (code : Str)
    (new_stock : Option Int) (new_price : Option Rat) : Bool × List Product :=
  match inventory with
  | [] => (false, [])
  | p :: rest =>
    if p.item_code = normCode code then
      let r := applyUpd p new_stock new_price
      (r.1, r.2 :: rest)
    else
      let r := update_product_details rest code new_stock new_price
      (r.1, p :: r.2)

/-- `delete_product(inventory, item_code)`: remove the first product
matching the normalised code, reporting whether a removal occurred. -/
def delete_product (inventory : List Product) (code : Str) : Bool × List Product :=
  match inventory with
  | [] => (false, [])
  | p :: rest =>
    if p.item_code = normCode code then (true, rest)
    else
      let r := delete_product rest code
      (r.1, p :: r.2)

/-- One record of the persisted JSON snapshot, as written by
`Product.to_dict`: the fields `name`, `price`, `stock`, `item_code`. -/
structure ProductDict where
  name : Str
  price : Rat
  stock : Int
  item_code : Str
deriving DecidableEq

/-- `Product.to_dict`. -/
def Product.to_dict (p : Product) : ProductDict :=
  ⟨p.name, p.price, p.stock, p.item_code⟩

/-- `save_inventory`: serialise every product with `to_dict`.  The JSON
text encoding is abstracted as the list of records it denotes. -/
def save_inventory (inventory : List Product) : List ProductDict :=
  inventory.map Product.to_dict

/-- `load_inventory` on a well-formed snapshot: rebuild each `Product`
from its record fields (`int(item['stock'])` on an integer is the
identity). -/
def load_inventory (data : List ProductDict) : List Product :=
  data.map (fun item => ⟨item.name, item.price, item.stock, item.item_code⟩)

/-! ### Lemmas about the string primitives -/

theorem dropWhile_eq_self_of_all {p : Nat → Bool} {l : Str}
    (h : ∀ c ∈ l, p c = false) : l.dropWhile p = l := by
  cases l with
  | nil => rfl
  | cons c t =>
    exact List.dropWhile_cons_of_neg (by simp [h c (by simp)])

theorem mem_of_mem_dropWhile {p : Nat → Bool} {l : Str} {c : Nat}
    (h : c ∈ l.dropWhile p) : c ∈ l :=
  (List.dropWhile_sublist p).mem h

theorem mem_of_mem_pyStrip {l : Str} {c : Nat} (h : c ∈ pyStrip l) : c ∈ l := by
  unfold pyStrip at h
  rw [List.mem_reverse] at h
  have h2 := mem_of_mem_dropWhile h
  rw [List.mem_reverse] at h2
  exact mem_of_mem_dropWhile h2

theorem pyStrip_eq_self {l : Str} (h : ∀ c ∈ l, isPySpace c = false) :
    pyStrip l = l := by
  unfold pyStrip
  rw [dropWhile_eq_self_of_all h,
    dropWhile_eq_self_of_all (fun c hc => h c (List.mem_reverse.mp hc)),
    List.reverse_reverse]

theorem dropWhile_dropWhile {p : Nat → Bool} (l : Str) :
    (l.dropWhile p).dropWhile p = l.dropWhile p := by
  induction l with
  | nil => rfl
  | cons c t ih =>
    by_cases h : p c
    · rw [List.dropWhile_cons_of_pos h]; exact ih
    · rw [List.dropWhile_cons_of_neg h, List.dropWhile_cons_of_neg h]

theorem head_false_of_dropWhile {p : Nat → Bool} {l t : Str} {c : Nat}
    (h : l.dropWhile p = c :: t) : p c = false := by
  induction l with
  | nil => simp at h
  | cons a l ih =>
    by_cases ha : p a
    · rw [List.dropWhile_cons_of_pos ha] at h; exact ih h
    · rw [List.dropWhile_cons_of_neg ha] at h
      cases h
      simpa using ha

theorem dropWhile_append_exists {p : Nat → Bool} (l : Str) :
    ∃ t, l = t ++ l.dropWhile p := by
  induction l with
  | nil => exact ⟨[], rfl⟩
  | cons a l ih =>
    by_cases ha : p a
    · obtain ⟨t, ht⟩ := ih
      exact ⟨a :: t, by rw [List.dropWhile_cons_of_pos ha]; simpa using ht⟩
    · exact ⟨[], by rw [List.dropWhile_cons_of_neg ha]; rfl⟩

theorem pyStrip_idem (l : Str) : pyStrip (pyStrip l) = pyStrip l := by
  have key : (pyStrip l).dropWhile isPySpace = pyStrip l := by
    cases hr : pyStrip l with
    | nil => rfl
    | cons c t =>
      refine List.dropWhile_cons_of_neg ?_
      unfold pyStrip at hr
      obtain ⟨t₀, ht₀⟩ := dropWhile_append_exists (p := isPySpace)
        ((l.dropWhile isPySpace).reverse)
      have hpre : l.dropWhile isPySpace =
          ((l.dropWhile isPySpace).reverse.dropWhile isPySpace).reverse ++
            t₀.reverse := by
        have := congrArg List.reverse ht₀
        rwa [List.reverse_reverse, List.reverse_append] at this
      rw [hr] at hpre
      have : l.dropWhile isPySpace = c :: (t ++ t₀.reverse) := by simpa using hpre
      simp [head_false_of_dropWhile this]
  show (((pyStrip l).dropWhile isPySpace).reverse.dropWhile isPySpace).reverse =
    pyStrip l
  rw [key]
  unfold pyStrip
  rw [List.reverse_reverse, dropWhile_dropWhile]

/-- The query normalisation of `find_product` is idempotent: its output
carries no surrounding whitespace. -/
theorem pyStrip_normCode (q : Str) : pyStrip (normCode q) = normCode q :=
  pyStrip_idem (pyUpper q)

/-- `hasLow l`: the string contains an ASCII lowercase letter. -/
def hasLow (l : Str) : Bool := l.any (fun c => 97 ≤ c && c ≤ 122)

theorem hasLow_normCode (q : Str) : hasLow (normCode q) = false := by
  simp only [hasLow, List.any_eq_false]
  intro c hc
  have hmem : c ∈ pyUpper q := mem_of_mem_pyStrip hc
  simp only [pyUpper, List.mem_map] at hmem
  obtain ⟨d, _, hd⟩ := hmem
  subst hd
  unfold upChar
  split <;> simp <;> omega

/-! ### Lemmas about digit strings and `pyInt` -/

theorem digitsVal_append_single (l : Str) (c : Nat) :
    digitsVal (l ++ [c]) = 10 * digitsVal l + (c - 48) := by
  simp [digitsVal, List.foldl_append]

theorem natDigitsAux_spec :
    ∀ fuel n, n < fuel →
      natDigitsAux fuel n ≠ [] ∧
      (∀ c ∈ natDigitsAux fuel n, isDigitC c = true) ∧
      digitsVal (natDigitsAux fuel n) = n := by
  intro fuel
  induction fuel with
  | zero => omega
  | succ fuel ih =>
    intro n hn
    by_cases h10 : n < 10
    · refine ⟨by simp [natDigitsAux, h10], ?_, ?_⟩
      · intro c hc
        simp only [natDigitsAux, if_pos h10, List.mem_singleton] at hc
        subst hc
        simp only [isDigitC, Bool.and_eq_true, decide_eq_true_eq]
        omega
      · simp only [natDigitsAux, if_pos h10, digitsVal, List.foldl_cons,
          List.foldl_nil]
        omega
    · have hdiv : n / 10 < fuel := by omega
      obtain ⟨hne, hdig, hval⟩ := ih (n / 10) hdiv
      simp only [natDigitsAux, if_neg h10]
      refine ⟨by simp, ?_, ?_⟩
      · intro c hc
        rcases List.mem_append.mp hc with h | h
        · exact hdig c h
        · simp only [List.mem_singleton] at h
          subst h
          simp only [isDigitC, Bool.and_eq_true, decide_eq_true_eq]
          omega
      · rw [digitsVal_append_single, hval]
        omega

theorem natDigits_spec (n : Nat) :
    natDigits n ≠ [] ∧ (∀ c ∈ natDigits n, isDigitC c = true) ∧
      digitsVal (natDigits n) = n :=
  natDigitsAux_spec (n + 1) n (by omega)

theorem digitsVal_replicate_zero (k : Nat) (l : Str) :
    digitsVal (List.replicate k 48 ++ l) = digitsVal l := by
  induction k with
  | zero => simp
  | succ k ih =>
    rw [List.replicate_succ, List.cons_append]
    simpa [digitsVal] using ih

theorem udAux_of_digits {l : Str} (h : ∀ c ∈ l, isDigitC c = true) :
    udAux l = true := by
  induction l with
  | nil => rfl
  | cons c t ih =>
    have hc := h c (by simp)
    have hne : c ≠ 95 := by
      simp only [isDigitC, Bool.and_eq_true, decide_eq_true_eq] at hc
      omega
    unfold udAux
    rw [if_neg hne, hc, ih (fun d hd => h d (by simp [hd]))]
    rfl

theorem validUD_of_digits {l : Str} (hne : l ≠ [])
    (h : ∀ c ∈ l, isDigitC c = true) : validUD l = true := by
  cases l with
  | nil => exact absurd rfl hne
  | cons c t =>
    simp only [validUD, Bool.and_eq_true]
    exact ⟨h c (by simp), udAux_of_digits (fun d hd => h d (by simp [hd]))⟩

theorem isPySpace_of_digit {c : Nat} (h : isDigitC c = true) :
    isPySpace c = false := by
  simp only [isDigitC, Bool.and_eq_true, decide_eq_true_eq] at h
  simp only [isPySpace]
  simp only [Bool.or_eq_false_iff, decide_eq_false_iff_not]
  omega

theorem parseUD_of_digits {l : Str} (hne : l ≠ [])
    (h : ∀ c ∈ l, isDigitC c = true) : parseUD l = some (digitsVal l) := by
  have hfilter : l.filter (fun c => c != 95) = l := by
    rw [List.filter_eq_self]
    intro c hc
    have := h c hc
    simp only [isDigitC, Bool.and_eq_true, decide_eq_true_eq] at this
    simp only [bne_iff_ne, ne_eq]
    omega
  simp [parseUD, validUD_of_digits hne h, hfilter]

theorem pyInt_of_digits {l : Str} (hne : l ≠ [])
    (h : ∀ c ∈ l, isDigitC c = true) :
    pyInt l = some (Int.ofNat (digitsVal l)) := by
  have hstrip : pyStrip l = l :=
    pyStrip_eq_self (fun c hc => isPySpace_of_digit (h c hc))
  unfold pyInt
  rw [hstrip]
  cases l with
  | nil => exact absurd rfl hne
  | cons c t =>
    have hc := h c (by simp)
    simp only [isDigitC, Bool.and_eq_true, decide_eq_true_eq] at hc
    simp only [pyIntAux, if_neg (by omega : ¬ c = 43),
      if_neg (by omega : ¬ c = 45), parseUD_of_digits hne h, Option.map_some']

theorem pyInt_pad3 (n : Int) : pyInt (pad3 n) = some n := by
  by_cases hneg : n < 0
  · obtain ⟨hne, hdig, hval⟩ := natDigits_spec n.natAbs
    have hdigall : ∀ c ∈ List.replicate (2 - (natDigits n.natAbs).length) 48 ++
        natDigits n.natAbs, isDigitC c = true := by
      intro c hc
      rcases List.mem_append.mp hc with h | h
      · rw [List.eq_of_mem_replicate h]; rfl
      · exact hdig c h
    have hbody : (List.replicate (2 - (natDigits n.natAbs).length) 48 ++
        natDigits n.natAbs) ≠ [] := by
      simp [hne]
    have hstrip : pyStrip (pad3 n) = pad3 n := by
      refine pyStrip_eq_self ?_
      intro c hc
      simp only [pad3, if_pos hneg, List.mem_cons] at hc
      rcases hc with h | h
      · subst h; rfl
      · exact isPySpace_of_digit (hdigall c h)
    have h45 : ∀ X : Str, pyIntAux (45 :: X) =
        (parseUD X).map (fun m => -(Int.ofNat m)) := by
      intro X
      simp [pyIntAux]
    unfold pyInt
    rw [hstrip]
    simp only [pad3, if_pos hneg]
    rw [h45, parseUD_of_digits hbody hdigall]
    simp only [Option.map_some']
    rw [digitsVal_replicate_zero, hval]
    congr 1
    simp only [Int.ofNat_eq_natCast]
    omega
  · obtain ⟨hne, hdig, hval⟩ := natDigits_spec n.toNat
    have hdigall : ∀ c ∈ List.replicate (3 - (natDigits n.toNat).length) 48 ++
        natDigits n.toNat, isDigitC c = true := by
      intro c hc
      rcases List.mem_append.mp hc with h | h
      · rw [List.eq_of_mem_replicate h]; rfl
      · exact hdig c h
    have hbody : (List.replicate (3 - (natDigits n.toNat).length) 48 ++
        natDigits n.toNat) ≠ [] := by
      simp [hne]
    have hpad : pad3 n = List.replicate (3 - (natDigits n.toNat).length) 48 ++
        natDigits n.toNat := by
      simp [pad3, if_neg hneg]
    rw [hpad, pyInt_of_digits hbody hdigall, digitsVal_replicate_zero, hval]
    congr 1
    simp only [Int.ofNat_eq_natCast]
    omega

/-! ### Lemmas about `maxInt` -/

theorem le_maxInt : ∀ {l : List Int} {v : Int}, v ∈ l → v ≤ maxInt l := by
  intro l
  induction l with
  | nil => intro v hv; simp at hv
  | cons a l ih =>
    intro v hv
    cases l with
    | nil =>
      simp only [List.mem_singleton] at hv
      subst hv
      exact le_refl _
    | cons b t =>
      rcases List.mem_cons.mp hv with h | h
      · subst h
        exact le_max_left _ _
      · exact le_trans (ih h) (le_max_right _ _)

theorem maxInt_mem : ∀ {l : List Int}, l ≠ [] → maxInt l ∈ l := by
  intro l
  induction l with
  | nil => intro h; exact absurd rfl h
  | cons a l ih =>
    intro _
    cases l with
    | nil => simp [maxInt]
    | cons b t =>
      show max a (maxInt (b :: t)) ∈ a :: b :: t
      rcases max_choice a (maxInt (b :: t)) with h | h
      · rw [h]; exact List.mem_cons_self _ _
      · rw [h]; exact List.mem_cons_of_mem _ (ih (by simp))

/-! ### Lemmas about `find_product`, `update_product_details`,
`delete_product` -/

theorem find_product_eq_some_iff {inv : List Product} {code : Str} {p : Product} :
    find_product inv code = some p ↔
      ∃ l₁ l₂, inv = l₁ ++ p :: l₂ ∧ p.item_code = normCode code ∧
        ∀ r ∈ l₁, r.item_code ≠ normCode code := by
  constructor
  · intro h
    induction inv with
    | nil => simp [find_product] at h
    | cons q rest ih =>
      by_cases hq : q.item_code = normCode code
      · simp only [find_product, if_pos hq, Option.some.injEq] at h
        subst h
        exact ⟨[], rest, rfl, hq, by simp⟩
      · simp only [find_product, if_neg hq] at h
        obtain ⟨l₁, l₂, heq, hpc, hno⟩ := ih h
        refine ⟨q :: l₁, l₂, by rw [heq]; rfl, hpc, ?_⟩
        intro r hr
        rcases List.mem_cons.mp hr with h | h
        · subst h; exact hq
        · exact hno r h
  · rintro ⟨l₁, l₂, heq, hpc, hno⟩
    subst heq
    induction l₁ with
    | nil => simp [find_product, if_pos hpc]
    | cons q l₁ ih =>
      have hq : q.item_code ≠ normCode code := hno q (by simp)
      simp only [List.cons_append, find_product, if_neg hq]
      exact ih (fun r hr => hno r (by simp [hr]))

theorem find_product_eq_none_iff {inv : List Product} {code : Str} :
    find_product inv code = none ↔
      ∀ p ∈ inv, p.item_code ≠ normCode code := by
  induction inv with
  | nil => simp [find_product]
  | cons q rest ih =>
    by_cases hq : q.item_code = normCode code
    · simp [find_product, if_pos hq]
      exact fun h => absurd hq h
    · simp only [find_product, if_neg hq, ih, List.mem_cons]
      constructor
      · intro h p hp
        rcases hp with h1 | h1
        · subst h1; exact hq
        · exact h p h1
      · intro h p hp
        exact h p (Or.inr hp)

theorem update_decomp {l₁ l₂ : List Product} {p : Product} {code : Str}
    (hno : ∀ r ∈ l₁, r.item_code ≠ normCode code)
    (hp : p.item_code = normCode code)
    (ns : Option Int) (np : Option Rat) :
    update_product_details (l₁ ++ p :: l₂) code ns np =
      ((applyUpd p ns np).1, l₁ ++ (applyUpd p ns np).2 :: l₂) := by
  induction l₁ with
  | nil =>
    simp only [List.nil_append, update_product_details, if_pos hp]
  | cons q l₁ ih =>
    have hq : q.item_code ≠ normCode code := hno q (by simp)
    have ih' := ih (fun r hr => hno r (by simp [hr]))
    show update_product_details (q :: (l₁ ++ p :: l₂)) code ns np = _
    unfold update_product_details
    rw [if_neg hq, ih']
    rfl

theorem update_no_match {inv : List Product} {code : Str}
    (hno : ∀ r ∈ inv, r.item_code ≠ normCode code)
    (ns : Option Int) (np : Option Rat) :
    update_product_details inv code ns np = (false, inv) := by
  induction inv with
  | nil => rfl
  | cons q rest ih =>
    have hq : q.item_code ≠ normCode code := hno q (by simp)
    simp only [update_product_details, if_neg hq,
      ih (fun r hr => hno r (by simp [hr]))]

theorem delete_decomp {l₁ l₂ : List Product} {p : Product} {code : Str}
    (hno : ∀ r ∈ l₁, r.item_code ≠ normCode code)
    (hp : p.item_code = normCode code) :
    delete_product (l₁ ++ p :: l₂) code = (true, l₁ ++ l₂) := by
  induction l₁ with
  | nil => simp only [List.nil_append, delete_product, if_pos hp]
  | cons q l₁ ih =>
    have hq : q.item_code ≠ normCode code := hno q (by simp)
    have ih' := ih (fun r hr => hno r (by simp [hr]))
    show delete_product (q :: (l₁ ++ p :: l₂)) code = _
    unfold delete_product
    rw [if_neg hq, ih']
    rfl

theorem delete_no_match {inv : List Product} {code : Str}
    (hno : ∀ r ∈ inv, r.item_code ≠ normCode code) :
    delete_product inv code = (false, inv) := by
  induction inv with
  | nil => rfl
  | cons q rest ih =>
    have hq : q.item_code ≠ normCode code := hno q (by simp)
    simp only [delete_product, if_neg hq,
      ih (fun r hr => hno r (by simp [hr]))]

/-! ### Lemmas about `generate_item_code` -/

/-- Every `"ITM"`-prefixed stored code has a suffix accepted by `int()`:
the precondition under which `generate_item_code` cannot raise. -/
def goodCodes (inv : List Product) : Prop :=
  ∀ q ∈ itmCodes inv, (pyInt (q.item_code.drop 3)).isSome

theorem generate_isSome_of_good {inv : List Product} (h : goodCodes inv) :
    (generate_item_code inv).isSome := by
  unfold generate_item_code
  by_cases he : inv.isEmpty
  · simp [he]
  · have hany : (itmCodes inv).any
        (fun p => (pyInt (p.item_code.drop 3)).isNone) = false := by
      rw [List.any_eq_false]
      intro q hq
      have := h q hq
      simp only [Option.isNone_iff_eq_none]
      intro hcontra
      rw [hcontra] at this
      simp at this
    simp [he, hany]

theorem generate_eq_of_good {inv : List Product} (hne : inv ≠ [])
    (h : goodCodes inv) :
    generate_item_code inv =
      some (itmPre ++ pad3 (if (suffixVals inv).isEmpty then 1
        else maxInt (suffixVals inv) + 1)) := by
  have he : inv.isEmpty = false := by
    cases inv with
    | nil => exact absurd rfl hne
    | cons a l => rfl
  have hany : (itmCodes inv).any
      (fun p => (pyInt (p.item_code.drop 3)).isNone) = false := by
    rw [List.any_eq_false]
    intro q hq
    have := h q hq
    simp only [Option.isNone_iff_eq_none]
    intro hcontra
    rw [hcontra] at this
    simp at this
  simp [generate_item_code, he, hany]

theorem suffixVals_ne_nil {inv : List Product} (h : goodCodes inv)
    (hitm : itmCodes inv ≠ []) : suffixVals inv ≠ [] := by
  cases hc : itmCodes inv with
  | nil => exact absurd hc hitm
  | cons q rest =>
    have hq : q ∈ itmCodes inv := by rw [hc]; simp
    have := h q hq
    obtain ⟨v, hv⟩ := Option.isSome_iff_exists.mp this
    intro hcontra
    have hmem : v ∈ suffixVals inv := by
      unfold suffixVals
      exact List.mem_filterMap.mpr ⟨q, hq, hv⟩
    rw [hcontra] at hmem
    simp at hmem

theorem suffixVals_eq_nil_of_itm_nil {inv : List Product}
    (hitm : itmCodes inv = []) : suffixVals inv = [] := by
  unfold suffixVals
  rw [hitm]
  rfl

/-- The fresh code returned by `generate_item_code` differs from every
stored code. -/
theorem generate_fresh {inv : List Product} {c : Str} (h : goodCodes inv)
    (hgen : generate_item_code inv = some c) :
    ∀ p ∈ inv, p.item_code ≠ c := by
  intro p hp heq
  cases hinv : inv with
  | nil => rw [hinv] at hp; simp at hp
  | cons a l =>
    have hne : inv ≠ [] := by rw [hinv]; simp
    rw [generate_eq_of_good hne h] at hgen
    have hc : c = itmPre ++ pad3 (if (suffixVals inv).isEmpty then 1
        else maxInt (suffixVals inv) + 1) := by
      exact (Option.some.injEq _ _).mp hgen.symm
    by_cases hpre : itmPre.isPrefixOf p.item_code
    · have hpitm : p ∈ itmCodes inv := List.mem_filter.mpr ⟨hp, hpre⟩
      obtain ⟨v, hv⟩ := Option.isSome_iff_exists.mp (h p hpitm)
      have hvmem : v ∈ suffixVals inv :=
        List.mem_filterMap.mpr ⟨p, hpitm, hv⟩
      have hsne : (suffixVals inv).isEmpty = false := by
        cases hs : suffixVals inv with
        | nil => rw [hs] at hvmem; simp at hvmem
        | cons x xs => rfl
      rw [hsne] at hc
      simp only [Bool.false_eq_true, if_false] at hc
      have hdrop : p.item_code.drop 3 = pad3 (maxInt (suffixVals inv) + 1) := by
        rw [heq, hc]
        exact List.drop_left' (by rfl)
      rw [hdrop, pyInt_pad3] at hv
      have hv' : maxInt (suffixVals inv) + 1 = v := by injection hv
      have hle : v ≤ maxInt (suffixVals inv) := le_maxInt hvmem
      omega
    · apply hpre
      rw [heq, hc]
      rw [List.isPrefixOf_iff_prefix]
      exact List.prefix_append _ _

/-! ### Computation lemmas for `applyUpd` and `get_product_by_name` -/

theorem applyUpd_stock_only {p : Product} {s : Int} (hs : 0 ≤ s) :
    applyUpd p (some s) none = (true, ⟨p.name, p.price, s, p.item_code⟩) := by
  simp [applyUpd, show ¬ s < 0 by omega]

theorem applyUpd_price_only {p : Product} {pr : Rat} (hpr : 0 < pr) :
    applyUpd p none (some pr) = (true, ⟨p.name, pr, p.stock, p.item_code⟩) := by
  simp [applyUpd, not_le.mpr hpr]

theorem applyUpd_bad_stock {p : Product} {s : Int} (hs : s < 0)
    (np : Option Rat) : applyUpd p (some s) np = (false, p) := by
  simp [applyUpd, hs]

theorem applyUpd_stock_bad_price {p : Product} {s : Int} {pr : Rat}
    (hs : 0 ≤ s) (hpr : pr ≤ 0) :
    applyUpd p (some s) (some pr) =
      (false, ⟨p.name, p.price, s, p.item_code⟩) := by
  simp [applyUpd, show ¬ s < 0 by omega, hpr]

theorem get_product_by_name_isSome_iff {inv : List Product} {name : Str} :
    (get_product_by_name inv name).isSome ↔
      ∃ p ∈ inv, pyLower p.name = pyLower name := by
  induction inv with
  | nil => simp [get_product_by_name]
  | cons q rest ih =>
    by_cases hq : pyLower q.name = pyLower name
    · simp [get_product_by_name, if_pos hq]
      exact Or.inl hq
    · simp only [get_product_by_name, if_neg hq, ih, List.mem_cons]
      constructor
      · rintro ⟨p, hp, he⟩
        exact ⟨p, Or.inr hp, he⟩
      · rintro ⟨p, hp | hp, he⟩
        · subst hp; exact absurd he hq
        · exact ⟨p, hp, he⟩

theorem get_product_by_name_eq_none_iff {inv : List Product} {name : Str} :
    get_product_by_name inv name = none ↔
      ∀ p ∈ inv, pyLower p.name ≠ pyLower name := by
  rw [← Option.not_isSome_iff_eq_none, get_product_by_name_isSome_iff]
  push_neg
  rfl

/-! ### The claims -/

/-- C6: for every inventory, saving it and then loading reproduces an
equivalent collection: the same records with the same `name`, `price`,
`stock` and `item_code` field values, in the same order. -/
theorem C6_save_load_roundtrip (inv : List Product) :
    load_inventory (save_inventory inv) = inv := by
  induction inv with
  | nil => rfl
  | cons p rest ih =>
    show (⟨p.name, p.price, p.stock, p.item_code⟩ : Product) ::
      load_inventory (save_inventory rest) = p :: rest
    rw [ih]

/-- C7: when the queried code is found, `update_product_details` updates
only the fields provided: with only a valid `new_stock` the price (and
name and code) of the product are unchanged, with only a valid
`new_price` its stock is unchanged, and in either case every other
product of the collection is untouched. -/
theorem C7_update_only_provided_fields (inv : List Product) (code : Str)
    (p : Product) (hfind : find_product inv code = some p) :
    ∃ l₁ l₂, inv = l₁ ++ p :: l₂ ∧
      (∀ s : Int, 0 ≤ s →
        update_product_details inv code (some s) none =
          (true, l₁ ++ ⟨p.name, p.price, s, p.item_code⟩ :: l₂)) ∧
      (∀ pr : Rat, 0 < pr →
        update_product_details inv code none (some pr) =
          (true, l₁ ++ ⟨p.name, pr, p.stock, p.item_code⟩ :: l₂)) := by
  obtain ⟨l₁, l₂, heq, hpc, hno⟩ := find_product_eq_some_iff.mp hfind
  subst heq
  refine ⟨l₁, l₂, rfl, ?_, ?_⟩
  · intro s hs
    rw [update_decomp hno hpc, applyUpd_stock_only hs]
  · intro pr hpr
    rw [update_decomp hno hpc, applyUpd_price_only hpr]

/-- Witness for C7 at a concrete inventory and query. -/
theorem C7_witness :
    ∃ l₁ l₂,
      ([⟨cs "W", 5, 5, cs "ITM001"⟩] : List Product) =
        l₁ ++ (⟨cs "W", 5, 5, cs "ITM001"⟩ : Product) :: l₂ ∧
      (∀ s : Int, 0 ≤ s →
        update_product_details [⟨cs "W", 5, 5, cs "ITM001"⟩] (cs "ITM001")
          (some s) none =
          (true, l₁ ++ (⟨cs "W", 5, s, cs "ITM001"⟩ : Product) :: l₂)) ∧
      (∀ pr : Rat, 0 < pr →
        update_product_details [⟨cs "W", 5, 5, cs "ITM001"⟩] (cs "ITM001")
          none (some pr) =
          (true, l₁ ++ (⟨cs "W", pr, 5, cs "ITM001"⟩ : Product) :: l₂)) :=
  C7_update_only_provided_fields _ _ _ (by decide)

/-- C8: deleting a code with no matching product reports failure and
leaves the collection unchanged; deleting a code with a matching product
reports success and removes exactly that record, the other records
keeping their original order. -/
theorem C8_delete_spec (inv : List Product) (code : Str) :
    (find_product inv code = none → delete_product inv code = (false, inv)) ∧
    (∀ p, find_product inv code = some p →
      ∃ l₁ l₂, inv = l₁ ++ p :: l₂ ∧
        (∀ r ∈ l₁, r.item_code ≠ normCode code) ∧
        delete_product inv code = (true, l₁ ++ l₂)) := by
  constructor
  · intro h
    exact delete_no_match (find_product_eq_none_iff.mp h)
  · intro p h
    obtain ⟨l₁, l₂, heq, hpc, hno⟩ := find_product_eq_some_iff.mp h
    subst heq
    exact ⟨l₁, l₂, rfl, hno, delete_decomp hno hpc⟩

/-- Witness for C8 at a concrete inventory and a non-matching query. -/
theorem C8_witness :
    delete_product [⟨cs "W", 5, 5, cs "ITM001"⟩] (cs "ITM999") =
      (false, [⟨cs "W", 5, 5, cs "ITM001"⟩]) :=
  (C8_delete_spec _ _).1 (by decide)

/-- C1 counterexample: with a valid `new_stock = 7` and an invalid
`new_price = 0` both provided, the call fails but the stock change is
applied — the claim's "applies neither field" is false on this input. -/
theorem C1_counterexample :
    (0 : Int) ≤ 7 ∧ (0 : Rat) ≤ 0 ∧
    update_product_details [⟨cs "Widget", 5, 5, cs "ITM001"⟩] (cs "ITM001")
      (some 7) (some 0) = (false, [⟨cs "Widget", 5, 7, cs "ITM001"⟩]) :=
  ⟨by decide, le_refl 0, by decide⟩

/-- C1 amended: an invalid provided `new_stock < 0` makes the call fail
with neither field applied, but when a valid `new_stock ≥ 0` and an
invalid `new_price ≤ 0` are both provided the call fails with the stock
already updated and only the price left unchanged. -/
theorem C1_amended (inv : List Product) (code : Str) :
    (∀ s : Int, s < 0 → ∀ np : Option Rat,
      update_product_details inv code (some s) np = (false, inv)) ∧
    (∀ p, find_product inv code = some p →
      ∀ (s : Int) (pr : Rat), 0 ≤ s → pr ≤ 0 →
        ∃ l₁ l₂, inv = l₁ ++ p :: l₂ ∧
          update_product_details inv code (some s) (some pr) =
            (false, l₁ ++ ⟨p.name, p.price, s, p.item_code⟩ :: l₂)) := by
  constructor
  · intro s hs np
    induction inv with
    | nil => rfl
    | cons q rest ih =>
      by_cases hq : q.item_code = normCode code
      · show update_product_details (q :: rest) code (some s) np = _
        unfold update_product_details
        rw [if_pos hq, applyUpd_bad_stock hs]
      · show update_product_details (q :: rest) code (some s) np = _
        unfold update_product_details
        rw [if_neg hq, ih]
  · intro p hfind s pr hs hpr
    obtain ⟨l₁, l₂, heq, hpc, hno⟩ := find_product_eq_some_iff.mp hfind
    subst heq
    refine ⟨l₁, l₂, rfl, ?_⟩
    rw [update_decomp hno hpc, applyUpd_stock_bad_price hs hpr]

/-- Witness for C1's amended statement at a concrete inventory. -/
theorem C1_witness :
    update_product_details [⟨cs "W", 5, 5, cs "ITM001"⟩] (cs "ITM001")
      (some (-1)) none = (false, [⟨cs "W", 5, 5, cs "ITM001"⟩]) :=
  (C1_amended [⟨cs "W", 5, 5, cs "ITM001"⟩] (cs "ITM001")).1 (-1) (by decide)
    none

/-- C2: `add_product` with a non-positive price, a negative stock, or a
name already present up to letter case always returns `None` without
raising and leaves the collection exactly as it was. -/
theorem C2_add_invalid_fails (inv : List Product) (name : Str) (price : Rat)
    (stock : Int)
    (h : price ≤ 0 ∨ stock < 0 ∨ ∃ p ∈ inv, pyLower p.name = pyLower name) :
    add_product inv name price stock = some (none, inv) := by
  unfold add_product
  rcases h with h | h | h
  · rw [if_pos (Or.inl h)]
  · rw [if_pos (Or.inr h)]
  · by_cases h2 : price ≤ 0 ∨ stock < 0
    · rw [if_pos h2]
    · rw [if_neg h2,
        if_pos (get_product_by_name_isSome_iff.mpr h)]

/-- Witness for C2 at a concrete invalid price. -/
theorem C2_witness : add_product [] (cs "Pen") 0 5 = some (none, []) :=
  C2_add_invalid_fails [] (cs "Pen") 0 5 (Or.inl (le_refl 0))

/-- C3 counterexample: on an inventory holding a product whose code is
`"ITMx"`, a perfectly valid `add_product` call raises (modelled `none`)
instead of succeeding, although price, stock and name satisfy every
hypothesis of the claim. -/
theorem C3_counterexample :
    (0 : Rat) < 1 ∧ (0 : Int) ≤ 1 ∧
    get_product_by_name [⟨cs "Widget", 2, 3, cs "ITMx"⟩] (cs "Gadget") =
      none ∧
    add_product [⟨cs "Widget", 2, 3, cs "ITMx"⟩] (cs "Gadget") 1 1 = none :=
  ⟨by norm_num, by decide, by decide, by decide⟩

/-- C3 amended: under the added precondition that every stored
`"ITM"`-prefixed code has a suffix accepted by `int()` (so that
`generate_item_code` cannot raise), a valid `add_product` call succeeds,
returns the new record, appends it, and assigns a code distinct from
every stored code that continues the sequence: `"ITM001"` when no
`"ITM"`-prefixed code is stored, else `"ITM"` + (maximum suffix + 1)
zero-padded. -/
theorem C3_amended (inv : List Product) (name : Str) (price : Rat)
    (stock : Int) (hp : 0 < price) (hs : 0 ≤ stock)
    (hname : ∀ p ∈ inv, pyLower p.name ≠ pyLower name)
    (hgood : goodCodes inv) :
    ∃ code, generate_item_code inv = some code ∧
      add_product inv name price stock =
        some (some ⟨name, price, stock, code⟩,
          inv ++ [⟨name, price, stock, code⟩]) ∧
      (∀ p ∈ inv, p.item_code ≠ code) ∧
      (itmCodes inv = [] → code = cs "ITM001") ∧
      (itmCodes inv ≠ [] →
        code = itmPre ++ pad3 (maxInt (suffixVals inv) + 1)) := by
  obtain ⟨code, hgen⟩ :=
    Option.isSome_iff_exists.mp (generate_isSome_of_good hgood)
  refine ⟨code, hgen, ?_, generate_fresh hgood hgen, ?_, ?_⟩
  · have hn : get_product_by_name inv name = none :=
      get_product_by_name_eq_none_iff.mpr hname
    unfold add_product
    rw [if_neg (by push_neg; exact ⟨hp, hs⟩), if_neg (by rw [hn]; simp),
      hgen]
  · intro hitm
    cases hinv : inv with
    | nil =>
      rw [hinv] at hgen
      have : some (cs "ITM001") = some code := by
        rw [← hgen]; rfl
      exact ((Option.some.injEq _ _).mp this).symm
    | cons a l =>
      rw [generate_eq_of_good (by rw [hinv]; simp) hgood] at hgen
      have hsv : suffixVals inv = [] := suffixVals_eq_nil_of_itm_nil hitm
      rw [hsv] at hgen
      simp only [List.isEmpty_nil, if_true] at hgen
      have := (Option.some.injEq _ _).mp hgen
      rw [← this]
      decide
  · intro hitm
    have hne : inv ≠ [] := by
      intro hcontra
      apply hitm
      rw [hcontra]
      rfl
    rw [generate_eq_of_good hne hgood] at hgen
    have hsne : (suffixVals inv).isEmpty = false := by
      cases hs2 : suffixVals inv with
      | nil => exact absurd hs2 (suffixVals_ne_nil hgood hitm)
      | cons x xs => rfl
    rw [hsne] at hgen
    simp only [Bool.false_eq_true, if_false] at hgen
    exact ((Option.some.injEq _ _).mp hgen).symm

/-- Witness for C3's amended statement on the empty inventory. -/
theorem C3_witness :
    ∃ code, generate_item_code [] = some code ∧
      add_product [] (cs "Pen") 1 2 =
        some (some ⟨cs "Pen", 1, 2, code⟩, [] ++ [⟨cs "Pen", 1, 2, code⟩]) ∧
      (∀ p ∈ ([] : List Product), p.item_code ≠ code) ∧
      (itmCodes [] = [] → code = cs "ITM001") ∧
      (itmCodes [] ≠ [] →
        code = itmPre ++ pad3 (maxInt (suffixVals []) + 1)) :=
  C3_amended [] (cs "Pen") 1 2 (by norm_num) (by decide)
    (by intro p hp; simp at hp)
    (by intro q hq; simp [itmCodes] at hq)

/-- C4 counterexample: on an inventory whose only code is the bare
`"ITM"`, no code matches the `ITM###` pattern, yet `generate_item_code`
raises (modelled `none`) instead of returning `"ITM001"` as the claim
requires. -/
theorem C4_counterexample :
    generate_item_code [⟨cs "Widget", 5, 5, cs "ITM"⟩] = none ∧
    generate_item_code [⟨cs "Widget", 5, 5, cs "ITM"⟩] ≠
      some (cs "ITM001") :=
  ⟨by decide, by decide⟩

/-- C4 amended: `generate_item_code` scans the codes beginning with
`"ITM"` and converts each remainder with `int()`, raising when one fails
to parse; under the precondition that all of them parse it returns
`"ITM001"` on an empty collection or when no `"ITM"`-prefixed code is
stored, and otherwise `"ITM"` + (maximum numeric suffix + 1) zero-padded
to 3 digits; on `[ITM001, ITM003]` it returns `ITM004` (max + 1, not
gap-filling). -/
theorem C4_amended (inv : List Product) (hgood : goodCodes inv) :
    (inv = [] → generate_item_code inv = some (cs "ITM001")) ∧
    (itmCodes inv = [] → generate_item_code inv = some (cs "ITM001")) ∧
    (itmCodes inv ≠ [] →
      ∃ m, m ∈ suffixVals inv ∧ (∀ v ∈ suffixVals inv, v ≤ m) ∧
        generate_item_code inv = some (itmPre ++ pad3 (m + 1))) ∧
    generate_item_code
        [⟨cs "A", 1, 1, cs "ITM001"⟩, ⟨cs "B", 1, 1, cs "ITM003"⟩] =
      some (cs "ITM004") := by
  refine ⟨?_, ?_, ?_, by decide⟩
  · intro h
    subst h
    decide
  · intro hitm
    by_cases hinv : inv = []
    · subst hinv; decide
    · rw [generate_eq_of_good hinv hgood,
        suffixVals_eq_nil_of_itm_nil hitm]
      simp only [List.isEmpty_nil, if_true]
      decide
  · intro hitm
    have hne : inv ≠ [] := by
      intro hcontra
      apply hitm
      rw [hcontra]
      rfl
    have hsne : (suffixVals inv).isEmpty = false := by
      cases hs2 : suffixVals inv with
      | nil => exact absurd hs2 (suffixVals_ne_nil hgood hitm)
      | cons x xs => rfl
    refine ⟨maxInt (suffixVals inv),
      maxInt_mem (suffixVals_ne_nil hgood hitm),
      fun v hv => le_maxInt hv, ?_⟩
    rw [generate_eq_of_good hne hgood, hsne]
    simp only [Bool.false_eq_true, if_false]

/-- Witness for C4's amended statement on the empty inventory. -/
theorem C4_witness : generate_item_code [] = some (cs "ITM001") :=
  (C4_amended [] (by intro q hq; simp [itmCodes] at hq)).1 rfl

/-- C5 counterexample: a stored code `"itm001"` queried by the very same
string `"itm001"` (already trimmed, and certainly equal to the stored
code ignoring case) is not found — the claim's case-insensitive match
predicate is false of the code's behaviour. -/
theorem C5_counterexample :
    (⟨cs "Widget", 5, 5, cs "itm001"⟩ : Product).item_code = cs "itm001" ∧
    pyStrip (cs "itm001") = cs "itm001" ∧
    find_product [⟨cs "Widget", 5, 5, cs "itm001"⟩] (cs "itm001") = none :=
  ⟨rfl, by decide, by decide⟩

/-- C5 amended: `find_product` returns the first stored product whose
`item_code` is character-for-character equal to the uppercased and then
trimmed query, and reports "not found" exactly when no stored code
equals that normalised query; in particular the queries `"itm001"` and
`" ITM001 "` both match a stored `ITM001`. -/
theorem C5_amended (inv : List Product) (q : Str) :
    (∀ p, find_product inv q = some p ↔
      ∃ l₁ l₂, inv = l₁ ++ p :: l₂ ∧ p.item_code = normCode q ∧
        ∀ r ∈ l₁, r.item_code ≠ normCode q) ∧
    (find_product inv q = none ↔ ∀ p ∈ inv, p.item_code ≠ normCode q) ∧
    find_product [⟨cs "A", 1, 1, cs "ITM001"⟩] (cs "itm001") =
      some ⟨cs "A", 1, 1, cs "ITM001"⟩ ∧
    find_product [⟨cs "A", 1, 1, cs "ITM001"⟩] (cs " ITM001 ") =
      some ⟨cs "A", 1, 1, cs "ITM001"⟩ :=
  ⟨fun _ => find_product_eq_some_iff, find_product_eq_none_iff,
    by decide, by decide⟩

/-- Witness for C5's amended statement at a concrete inventory. -/
theorem C5_witness :
    find_product [⟨cs "A", 1, 1, cs "ITM001"⟩] (cs "itm001") =
      some ⟨cs "A", 1, 1, cs "ITM001"⟩ :=
  ((C5_amended [⟨cs "A", 1, 1, cs "ITM001"⟩] (cs "itm001")).1 _).mpr
    ⟨[], [], rfl, by decide, by simp⟩

/-- C9: when every stored code beginning with `"ITM"` carries a
non-empty all-digit suffix, the `int()` conversion inside
`generate_item_code` cannot fail, so `generate_item_code` and
`add_product` return normally; but on an inventory holding the code
`"ITMx"` the conversion raises, and both are undefined (modelled
`none`). -/
theorem C9_generate_total_iff_good_codes :
    (∀ inv : List Product,
      (∀ p ∈ inv, itmPre.isPrefixOf p.item_code = true →
        p.item_code.drop 3 ≠ [] ∧
          ∀ c ∈ p.item_code.drop 3, isDigitC c = true) →
      (generate_item_code inv).isSome = true ∧
      ∀ (name : Str) (price : Rat) (stock : Int),
        (add_product inv name price stock).isSome = true) ∧
    generate_item_code [⟨cs "Widget", 5, 5, cs "ITMx"⟩] = none ∧
    add_product [⟨cs "Widget", 5, 5, cs "ITMx"⟩] (cs "Gadget") 1 1 =
      none := by
  refine ⟨?_, by decide, by decide⟩
  intro inv h
  have hgood : goodCodes inv := by
    intro q hq
    have hq' : q ∈ inv.filter (fun p => itmPre.isPrefixOf p.item_code) := hq
    have hqf := List.mem_filter.mp hq'
    obtain ⟨hne, hdig⟩ := h q hqf.1 hqf.2
    rw [pyInt_of_digits hne hdig]
    rfl
  have hgen := generate_isSome_of_good hgood
  refine ⟨hgen, ?_⟩
  intro name price stock
  unfold add_product
  by_cases h1 : price ≤ 0 ∨ stock < 0
  · rw [if_pos h1]; rfl
  · rw [if_neg h1]
    by_cases h2 : (get_product_by_name inv name).isSome
    · rw [if_pos h2]; rfl
    · rw [if_neg h2]
      obtain ⟨c, hc⟩ := Option.isSome_iff_exists.mp hgen
      rw [hc]
      rfl

/-- Witness for C9's universal part at a concrete well-formed
inventory. -/
theorem C9_witness :
    (generate_item_code [⟨cs "A", 1, 1, cs "ITM001"⟩]).isSome = true :=
  ((C9_generate_total_iff_good_codes).1 [⟨cs "A", 1, 1, cs "ITM001"⟩]
    (by decide)).1

/-- C10: `find_product` normalises only the query, never the stored
code: a returned product's stored `item_code` is exactly the uppercased
trimmed query, hence contains no ASCII lowercase letter and no
surrounding whitespace; a product whose stored code violates this is
never found by any query, and on an inventory made only of such
products `update_product_details` and `delete_product` report failure
and change nothing, for every query. -/
theorem C10_find_normalizes_query_only :
    (∀ (inv : List Product) (q : Str) (p : Product),
      find_product inv q = some p →
        p.item_code = normCode q ∧ hasLow p.item_code = false ∧
        pyStrip p.item_code = p.item_code) ∧
    (∀ (inv : List Product) (q : Str) (p : Product),
      hasLow p.item_code = true ∨ pyStrip p.item_code ≠ p.item_code →
        find_product inv q ≠ some p) ∧
    (∀ inv : List Product,
      (∀ p ∈ inv,
        hasLow p.item_code = true ∨ pyStrip p.item_code ≠ p.item_code) →
      ∀ (q : Str) (ns : Option Int) (np : Option Rat),
        find_product inv q = none ∧
        update_product_details inv q ns np = (false, inv) ∧
        delete_product inv q = (false, inv)) := by
  have key : ∀ (inv : List Product) (q : Str) (p : Product),
      find_product inv q = some p →
        p.item_code = normCode q ∧ hasLow p.item_code = false ∧
        pyStrip p.item_code = p.item_code := by
    intro inv q p h
    obtain ⟨l₁, l₂, heq, hpc, hno⟩ := find_product_eq_some_iff.mp h
    refine ⟨hpc, ?_, ?_⟩
    · rw [hpc]; exact hasLow_normCode q
    · rw [hpc]; exact pyStrip_normCode q
  have hnomatch : ∀ (inv : List Product) (q : Str),
      (∀ p ∈ inv,
        hasLow p.item_code = true ∨ pyStrip p.item_code ≠ p.item_code) →
      ∀ p ∈ inv, p.item_code ≠ normCode q := by
    intro inv q h p hp heq
    rcases h p hp with hl | hs
    · rw [heq, hasLow_normCode] at hl
      cases hl
    · exact hs (by rw [heq]; exact pyStrip_normCode q)
  refine ⟨key, ?_, ?_⟩
  · intro inv q p hbad hfind
    obtain ⟨_, hlow, hstrip⟩ := key inv q p hfind
    rcases hbad with hl | hs
    · rw [hlow] at hl; cases hl
    · exact hs hstrip
  · intro inv h q ns np
    exact ⟨find_product_eq_none_iff.mpr (hnomatch inv q h),
      update_no_match (hnomatch inv q h) ns np,
      delete_no_match (hnomatch inv q h)⟩

/-- Witness for C10 at a concrete inventory whose only stored code is
lowercase. -/
theorem C10_witness :
    find_product [⟨cs "A", 1, 1, cs "itm001"⟩] (cs "itm001") = none ∧
    update_product_details [⟨cs "A", 1, 1, cs "itm001"⟩] (cs "itm001")
      (some 7) none = (false, [⟨cs "A", 1, 1, cs "itm001"⟩]) ∧
    delete_product [⟨cs "A", 1, 1, cs "itm001"⟩] (cs "itm001") =
      (false, [⟨cs "A", 1, 1, cs "itm001"⟩]) :=
  C10_find_normalizes_query_only.2.2 [⟨cs "A", 1, 1, cs "itm001"⟩]
    (by intro p hp; simp only [List.mem_singleton] at hp; subst hp
        exact Or.inl (by decide))
    (cs "itm001") (some 7) none

/-! Sanity checks on concrete values (mirrors of the repository's
documented examples). -/

example : generate_item_code [] = some (cs "ITM001") := by decide

example :
    generate_item_code
      [⟨cs "A", 1, 1, cs "ITM001"⟩, ⟨cs "B", 1, 1, cs "ITM003"⟩] =
      some (cs "ITM004") := by decide

example :
    find_product [⟨cs "A", 1, 1, cs "ITM001"⟩] (cs "itm001") =
      some ⟨cs "A", 1, 1, cs "ITM001"⟩ := by decide

example :
    find_product [⟨cs "A", 1, 1, cs "ITM001"⟩] (cs " ITM001 ") =
      some ⟨cs "A", 1, 1, cs "ITM001"⟩ := by decide

example : find_product [⟨cs "A", 1, 1, cs "itm001"⟩] (cs "itm001") = none := by
  decide

example : generate_item_code [⟨cs "A", 1, 1, cs "ITMx"⟩] = none := by decide

example : add_product [] (cs "A") 0 5 = some (none, []) := by decide

example :
    update_product_details [⟨cs "W", 5, 5, cs "ITM001"⟩] (cs "ITM001")
      (some 7) (some 0) = (false, [⟨cs "W", 5, 7, cs "ITM001"⟩]) := by decide

end Inventory
